import Mathlib

/-!
Shallow embedding of the core of the `rune` Emacs-Lisp interpreter, together
with theorems checking the natural-language specification against the code.

Each section embeds one source file:
* `Rune.Alloc`   — `src/alloc.rs` (`list`, `make_closure`, `make_byte_code`)
* `Rune.Fmt`     — `src/editfns.rs` (`format`)
* `Rune.LO`      — `src/lisp_object.rs` (tagged `LispObj` words, `Fixnum`)
* `Rune.Err`     — `src/core/error.rs` (error display)
* `Rune.RootG`   — `src/core/gc/root.rs` (`Root` guard init/drop discipline)
* `Rune.Buf`     — `src/core/object/buffer.rs` (gap buffer)
-/

set_option maxHeartbeats 1000000

namespace Rune

/-- Modelled from the spec: the tagged `Value` variants of §3 that the
allocator and `format` claims need.  The real `GcObj` object model lives in
`src/core/object/` which is not part of the sources here; heap values are
modelled as a tree.  `str` carries the UTF-8 character view of the string. -/
inductive Obj where
  | nil : Obj
  | t : Obj
  | int (n : Int) : Obj
  | str (s : List Char) : Obj
  | sym (name : List Char) : Obj
  | cons (car cdr : Obj) : Obj
  deriving Repr, DecidableEq

/-- Modelled from the spec: the per-variant printer (§6: "its printed
representation (per variant printer)"); a symbol prints as its name,
an integer as its decimal digits (the spec's scenario
`format("%s", [3]) = "3"` and `format("%s", [FUNCTION]) = "function"`). -/
def dispObj : Obj → List Char
  | .nil => "nil".data
  | .t => "t".data
  | .int n => (toString n).data
  | .str s => "\"".data ++ s ++ "\"".data
  | .sym name => name
  | .cons a d => "(".data ++ dispObj a ++ " . ".data ++ dispObj d ++ ")".data

end Rune

namespace Rune.Alloc

/-- Arity descriptor of a byte-code function (`FnArgs` in
`src/core/object`, fields as used by `src/alloc.rs`: `required`,
`optional`, `rest`, `advice`; the numeric fields are `u16`). -/
structure FnArgs where
  required : Nat
  optional : Nat
  rest : Bool
  advice : Bool
  deriving Repr, DecidableEq

/-- Body of a byte-code function (`Expression` in `src/core/object`):
an opcode byte vector and a constant vector. -/
structure Expression where
  op_codes : List Nat
  constants : List Obj
  deriving Repr, DecidableEq

/-- A byte-compiled function (`LispFn`): body plus arity descriptor. -/
structure LispFn where
  body : Expression
  args : FnArgs
  deriving Repr, DecidableEq

/-- Source: `list` from `src/alloc.rs`: start from nil and cons each argument,
iterating the argument slice in reverse. -/
def listF (objects : List Obj) : Obj :=
  objects.reverse.foldl (fun head object => Obj.cons object head) Obj.nil

/-- Overwriting the first elements of `constants` with `closure_vars`,
exactly as the `constants.iter_mut().zip(closure_vars.iter())` loop of
`make_closure` does: the zip stops at the shorter of the two lists. -/
def overwriteZip : List Obj → List Obj → List Obj
  | [], _ => []
  | cs, [] => cs
  | _ :: cs, v :: vs => v :: overwriteZip cs vs

/-- Source: `make_closure` from `src/alloc.rs`.  `ensure!` failure is the `Err`
case of the returned `anyhow::Result`. -/
def make_closure (prototype : LispFn) (closure_vars : List Obj) :
    Except String LispFn :=
  let const_len := prototype.body.constants.length
  let vars := closure_vars.length
  if vars ≤ 5 ∧ vars ≤ const_len then
    Except.ok
      { body := { op_codes := prototype.body.op_codes,
                  constants := overwriteZip prototype.body.constants closure_vars },
        args := prototype.args }
  else
    Except.error "Closure vars do not fit in const vec"

/-- Truncating cast `i64 as u16` (low 16 bits of the two's-complement
representation). -/
def u16ofInt (n : Int) : Nat := (n.emod 65536).toNat

/-- Source: `make_byte_code` from `src/alloc.rs`.  The `i64` arglist is cast to
`u16`, then `required = arglist & 0x7F`, `optional = arglist >> 8 & 0x7F`,
`rest = arglist & 0x80 != 0`.  The trailing parameters are accepted and
ignored, as in the source. -/
def make_byte_code (arglist : Int) (byte_code : List Nat) (constants : List Obj)
    (_depth : Nat) (_docstring : Option Obj) (_interactive_spec : Option Obj)
    (_elements : List Obj) : LispFn :=
  let w := u16ofInt arglist
  let required := w &&& 0x7F
  let optional := (w >>> 8) &&& 0x7F
  let rest := w &&& 0x80 ≠ 0
  { body := { op_codes := byte_code, constants := constants },
    args := { rest := decide rest, required := required, optional := optional,
              advice := false } }

/-- Reads a cons chain back as the list of its cars: `some` exactly for
proper nil-terminated chains. -/
def chainCells : Obj → Option (List Obj)
  | .nil => some []
  | .cons a d => (chainCells d).map (a :: ·)
  | _ => none

/-- Number of cons cells along the cdr spine. -/
def chainLength : Obj → Nat
  | .cons _ d => chainLength d + 1
  | _ => 0

theorem listF_eq_foldr (objects : List Obj) :
    listF objects = objects.foldr Obj.cons Obj.nil := by
  rw [listF, List.foldl_reverse]

theorem chainCells_listF (objects : List Obj) :
    chainCells (listF objects) = some objects := by
  rw [listF_eq_foldr]
  induction objects with
  | nil => rfl
  | cons a l ih => simp [chainCells, ih]

theorem chainLength_listF (objects : List Obj) :
    chainLength (listF objects) = objects.length := by
  rw [listF_eq_foldr]
  induction objects with
  | nil => rfl
  | cons a l ih => simp [chainLength, ih]

theorem overwriteZip_eq_append (cs vs : List Obj) (h : vs.length ≤ cs.length) :
    overwriteZip cs vs = vs ++ cs.drop vs.length := by
  induction vs generalizing cs with
  | nil => cases cs <;> rfl
  | cons v vs ih =>
    cases cs with
    | nil => simp at h
    | cons c cs =>
      simp only [List.length_cons, Nat.add_le_add_iff_right] at h
      simp [overwriteZip, ih cs h]

end Rune.Alloc

/-- C6: for every argument slice `xs`, `list(xs)` builds a proper cons
chain of exactly `len(xs)` cells whose successive cars are the elements of
`xs` in order, terminating in nil; the empty call returns nil itself. -/
theorem C6_list_builds_chain (xs : List Rune.Obj) :
    Rune.Alloc.chainCells (Rune.Alloc.listF xs) = some xs ∧
    Rune.Alloc.chainLength (Rune.Alloc.listF xs) = xs.length ∧
    Rune.Alloc.listF [] = Rune.Obj.nil :=
  ⟨Rune.Alloc.chainCells_listF xs, Rune.Alloc.chainLength_listF xs, rfl⟩

/-- C1: `make_closure(proto, vars)` succeeds exactly when
`len(vars) ≤ 5` and `len(vars) ≤ len(proto.constants)`; on success the
resulting function keeps the prototype's opcodes and arity and its
constants are `vars ++ proto.constants[len(vars)..]`; otherwise it is an
error. -/
theorem C1_make_closure_spec (proto : Rune.Alloc.LispFn) (vars : List Rune.Obj) :
    ((Rune.Alloc.make_closure proto vars).isOk ↔
      vars.length ≤ 5 ∧ vars.length ≤ proto.body.constants.length) ∧
    (vars.length ≤ 5 → vars.length ≤ proto.body.constants.length →
      Rune.Alloc.make_closure proto vars =
        Except.ok
          { body := { op_codes := proto.body.op_codes,
                      constants := vars ++ proto.body.constants.drop vars.length },
            args := proto.args }) ∧
    (¬(vars.length ≤ 5 ∧ vars.length ≤ proto.body.constants.length) →
      Rune.Alloc.make_closure proto vars =
        Except.error "Closure vars do not fit in const vec") := by
  refine ⟨?_, ?_, ?_⟩
  · unfold Rune.Alloc.make_closure
    by_cases h : vars.length ≤ 5 ∧ vars.length ≤ proto.body.constants.length
    · simp [h, Except.isOk, Except.toBool]
    · simp [h, Except.isOk, Except.toBool]
  · intro h5 hc
    unfold Rune.Alloc.make_closure
    rw [if_pos ⟨h5, hc⟩, Rune.Alloc.overwriteZip_eq_append _ _ hc]
  · intro h
    unfold Rune.Alloc.make_closure
    rw [if_neg h]

/-- C1 witness: a concrete instantiation with three constants and two
closure variables (spec §8 scenario 5). -/
theorem C1_make_closure_spec_witness :
    Rune.Alloc.make_closure
        { body := { op_codes := [0],
                    constants := [Rune.Obj.int 1, Rune.Obj.int 2, Rune.Obj.int 3] },
          args := { required := 0, optional := 0, rest := false, advice := false } }
        [Rune.Obj.t, Rune.Obj.nil] =
      Except.ok
        { body := { op_codes := [0],
                    constants := [Rune.Obj.t, Rune.Obj.nil, Rune.Obj.int 3] },
          args := { required := 0, optional := 0, rest := false, advice := false } } := by
  have h := C1_make_closure_spec
    { body := { op_codes := [0],
                constants := [Rune.Obj.int 1, Rune.Obj.int 2, Rune.Obj.int 3] },
      args := { required := 0, optional := 0, rest := false, advice := false } }
    [Rune.Obj.t, Rune.Obj.nil]
  exact h.2.1 (by decide) (by decide)

/-- C2: decoding the arglist word of `make_byte_code`: `required` is the
low 7 bits, `optional` is bits 8–14, `rest` is bit 7; a function built
from arglist `0x0082` has required 2, optional 0, rest set, and carries
the given opcode and constant vectors unchanged. -/
theorem C2_make_byte_code_arity (arglist : Int) (code : List Nat)
    (consts : List Rune.Obj) (d : Nat) (doc inter : Option Rune.Obj)
    (els : List Rune.Obj) :
    (Rune.Alloc.make_byte_code arglist code consts d doc inter els).args.required =
        Rune.Alloc.u16ofInt arglist % 2 ^ 7 ∧
    (Rune.Alloc.make_byte_code arglist code consts d doc inter els).args.optional =
        Rune.Alloc.u16ofInt arglist / 2 ^ 8 % 2 ^ 7 ∧
    ((Rune.Alloc.make_byte_code arglist code consts d doc inter els).args.rest = true ↔
        Rune.Alloc.u16ofInt arglist / 2 ^ 7 % 2 = 1) ∧
    (Rune.Alloc.make_byte_code arglist code consts d doc inter els).body.op_codes =
        code ∧
    (Rune.Alloc.make_byte_code arglist code consts d doc inter els).body.constants =
        consts ∧
    (Rune.Alloc.make_byte_code 0x0082 code consts d doc inter els).args =
        { required := 2, optional := 0, rest := true, advice := false } := by
  set w := Rune.Alloc.u16ofInt arglist with hw
  have hand : ∀ x : Nat, x &&& 0x7F = x % 2 ^ 7 := by
    intro x
    have := Nat.and_pow_two_sub_one_eq_mod x 7
    simpa using this
  refine ⟨?_, ?_, ?_, rfl, rfl, ?_⟩
  · simpa [Rune.Alloc.make_byte_code] using hand w
  · have : (w >>> 8) &&& 0x7F = w / 2 ^ 8 % 2 ^ 7 := by
      rw [hand (w >>> 8), Nat.shiftRight_eq_div_pow]
    simpa [Rune.Alloc.make_byte_code] using this
  · have h80 : w &&& 0x80 = w / 2 ^ 7 % 2 * 2 ^ 7 := by
      have h1 : w &&& 0x80 = (w >>> 7 &&& 1) <<< 7 := by
        apply Nat.eq_of_testBit_eq
        intro i
        simp only [Nat.testBit_and, Nat.testBit_shiftLeft, Nat.testBit_shiftRight]
        rcases Nat.lt_trichotomy i 7 with h | h | h
        · have h80i : (0x80 : Nat).testBit i = false := by
            interval_cases i <;> decide
          rw [h80i, Bool.and_false]
          simp [Nat.not_le.mpr h]
        · subst h
          have h128 : Nat.testBit 128 7 = true := by decide
          simp [h128]
        · have h7 : (0x80 : Nat).testBit i = false := by
            apply Nat.testBit_lt_two_pow
            have h8 : (2 : Nat) ^ 8 ≤ 2 ^ i := Nat.pow_le_pow_right (by norm_num) (by omega)
            norm_num at h8 ⊢
            omega
          have h1' : (1 : Nat).testBit (i - 7) = false := by
            apply Nat.testBit_lt_two_pow
            have h0 : 0 < i - 7 := by omega
            calc 1 < 2 ^ 1 := by norm_num
            _ ≤ 2 ^ (i - 7) := Nat.pow_le_pow_right (by norm_num) h0
          simp [h7, h1', Nat.le_of_lt h]
      rw [h1, Nat.shiftLeft_eq, Nat.shiftRight_eq_div_pow]
      have : w / 2 ^ 7 &&& 1 = w / 2 ^ 7 % 2 := Nat.and_one_is_mod _
      rw [this]
    constructor
    · intro h
      simp only [Rune.Alloc.make_byte_code, decide_eq_true_eq] at h
      rw [h80] at h
      omega
    · intro h
      simp only [Rune.Alloc.make_byte_code, decide_eq_true_eq]
      rw [h80, h]
      norm_num
  · have h130 : Rune.Alloc.u16ofInt 0x0082 = 0x82 := by decide
    simp only [Rune.Alloc.make_byte_code, h130]
    decide

/-- C2 witness: the spec's §8 scenario 4 instance
`make_byte_code(0x0082, [0x00], [NIL, T], 0, nil, nil)`. -/
theorem C2_make_byte_code_arity_witness :
    (Rune.Alloc.make_byte_code 0x0082 [0x00] [Rune.Obj.nil, Rune.Obj.t] 0
        (some Rune.Obj.nil) (some Rune.Obj.nil) []).args =
      { required := 2, optional := 0, rest := true, advice := false } :=
  (C2_make_byte_code_arity 0x0082 [0x00] [Rune.Obj.nil, Rune.Obj.t] 0
    (some Rune.Obj.nil) (some Rune.Obj.nil) []).2.2.2.2.2

namespace Rune.Fmt

open Rune

/-- Total UTF-8 byte length of a string viewed as its character list. -/
def byteLen (s : List Char) : Nat := (s.map Char.utf8Size).sum

/-- Drop `n` BYTES from the front: `some` only when `n` lands on a
character boundary at or before the end (Rust slicing panics otherwise). -/
def dropBytes : List Char → Nat → Option (List Char)
  | l, 0 => some l
  | [], _ + 1 => none
  | c :: cs, n + 1 =>
    if c.utf8Size ≤ n + 1 then dropBytes cs (n + 1 - c.utf8Size) else none

/-- Take `n` BYTES from the front: `some` only when `n` lands on a
character boundary at or before the end. -/
def takeBytes : List Char → Nat → Option (List Char)
  | _, 0 => some []
  | [], _ + 1 => none
  | c :: cs, n + 1 =>
    if c.utf8Size ≤ n + 1 then (takeBytes cs (n + 1 - c.utf8Size)).map (c :: ·)
    else none

/-- Rust string slice `s[a..b]` (byte indices): `some` iff `a ≤ b`, both
indices are in bounds and on character boundaries; a violation is a
panic (`none`). -/
def sliceB (s : List Char) (a b : Nat) : Option (List Char) :=
  if a ≤ b then (dropBytes s a).bind (fun t => takeBytes t (b - a)) else none

/-- The byte positions yielded by
`segment.match_indices(is_format_char)` in `format`: the stateful closure
is called once per character left to right; a backslash sets the escape
flag, an escaped character clears it, and an unescaped `%` is a match. -/
def matchIdxAux : Bool → Nat → List Char → List Nat
  | _, _, [] => []
  | escaped, p, c :: cs =>
    if escaped then matchIdxAux false (p + c.utf8Size) cs
    else if c = '\\' then matchIdxAux true (p + c.utf8Size) cs
    else if c = '%' then p :: matchIdxAux false (p + c.utf8Size) cs
    else matchIdxAux false (p + c.utf8Size) cs

def matchIndices (s : List Char) : List Nat := matchIdxAux false 0 s

/-- Source: `string.split("%%")`: left-greedy split on the two-character
separator, as Rust's `str::split` with a literal pattern. -/
def splitPct : List Char → List (List Char)
  | [] => [[]]
  | '%' :: '%' :: rest => [] :: splitPct rest
  | c :: rest =>
    match splitPct rest with
    | s :: ss => (c :: s) :: ss
    | [] => [[c]]

/-- Outcome of processing the matches of one segment: normal completion
(with the remaining arguments and the output so far), running out of
arguments (`bail!("Not enough objects for format string")`), or an
out-of-bounds / non-boundary slice, which in Rust is a panic (`crash`
carries the arguments remaining at the point of the panic). -/
inductive SegRes where
  | ok (args : List Obj) (out : List Char)
  | notEnough
  | crash (args : List Obj)
  deriving Repr, DecidableEq

/-- The body of `format`'s inner loop over `segment.match_indices(..)`,
followed by the two trailing `push_str`s of the segment remainder and the
`"%"` sentinel: for each match at byte `start`, output
`segment[last_end..start]`, consume one argument and print it, and set
`last_end = start + 2`. -/
def runMatches (seg : List Char) : List Nat → Nat → List Obj → List Char → SegRes
  | [], lastEnd, args, out =>
    match sliceB seg lastEnd (byteLen seg) with
    | none => .crash args
    | some piece => .ok args (out ++ piece ++ ['%'])
  | start :: ms, lastEnd, args, out =>
    match sliceB seg lastEnd start with
    | none => .crash args
    | some piece =>
      match args with
      | [] => .notEnough
      | a :: rest => runMatches seg ms (start + 2) rest (out ++ piece ++ dispObj a)

/-- Source: `format`'s outer loop over the segments of `string.split("%%")`. -/
def runSegs : List (List Char) → List Obj → List Char → SegRes
  | [], args, out => .ok args out
  | seg :: segs, args, out =>
    match runMatches seg (matchIndices seg) 0 args out with
    | .ok args' out' => runSegs segs args' out'
    | r => r

/-- Final result of `format`. -/
inductive FmtRes where
  | ok (out : List Char)
  | notEnough
  | tooMany
  | crash (args : List Obj)
  deriving Repr, DecidableEq

/-- Source: `format` from `src/editfns.rs`: split on `"%%"`, process each
segment, `pop` the final `"%"` sentinel, then fail with
`"Too many arguments for format string"` if arguments remain. -/
def formatF (s : List Char) (args : List Obj) : FmtRes :=
  match runSegs (splitPct s) args [] with
  | .notEnough => .notEnough
  | .crash a => .crash a
  | .ok args' out =>
    if args'.isEmpty then .ok out.dropLast else .tooMany

/-- Number of argument-consuming `%`-specifiers of the whole format
string: matches summed over all `"%%"`-segments. -/
def nSpecs (s : List Char) : Nat :=
  ((splitPct s).map (fun seg => (matchIndices seg).length)).sum

/-- All slices taken while processing a match list succeed: no panic. -/
def matchesOK (seg : List Char) : List Nat → Nat → Bool
  | [], lastEnd => (sliceB seg lastEnd (byteLen seg)).isSome
  | start :: ms, lastEnd =>
    (sliceB seg lastEnd start).isSome && matchesOK seg ms (start + 2)

/-- No slice taken anywhere in `format(s, ·)` panics. -/
def segsOK (s : List Char) : Bool :=
  (splitPct s).all (fun seg => matchesOK seg (matchIndices seg) 0)

theorem runMatches_spec (seg : List Char) (ms : List Nat) :
    ∀ lastEnd args out, matchesOK seg ms lastEnd = true →
      (ms.length ≤ args.length →
        ∃ out', runMatches seg ms lastEnd args out =
          .ok (args.drop ms.length) out') ∧
      (args.length < ms.length →
        runMatches seg ms lastEnd args out = .notEnough) := by
  induction ms with
  | nil =>
    intro lastEnd args out h
    simp only [matchesOK, Option.isSome_iff_exists] at h
    obtain ⟨piece, hp⟩ := h
    constructor
    · intro _
      exact ⟨out ++ piece ++ ['%'], by simp [runMatches, hp]⟩
    · intro habs
      simp at habs
  | cons start ms ih =>
    intro lastEnd args out h
    simp only [matchesOK, Bool.and_eq_true, Option.isSome_iff_exists] at h
    obtain ⟨⟨piece, hp⟩, hrest⟩ := h
    constructor
    · intro hlen
      cases args with
      | nil => simp at hlen
      | cons a rest =>
        simp only [List.length_cons, Nat.add_le_add_iff_right] at hlen
        obtain ⟨out', ho⟩ :=
          (ih (start + 2) rest (out ++ piece ++ dispObj a) hrest).1 hlen
        refine ⟨out', ?_⟩
        simp only [runMatches, hp]
        exact ho
    · intro hlen
      cases args with
      | nil => simp [runMatches, hp]
      | cons a rest =>
        simp only [List.length_cons, Nat.add_lt_add_iff_right] at hlen
        have hne := (ih (start + 2) rest (out ++ piece ++ dispObj a) hrest).2 hlen
        simp only [runMatches, hp]
        exact hne

theorem runSegs_spec (segs : List (List Char)) :
    ∀ args out,
      (∀ seg ∈ segs, matchesOK seg (matchIndices seg) 0 = true) →
      (((segs.map (fun seg => (matchIndices seg).length)).sum ≤ args.length →
        ∃ out', runSegs segs args out =
          .ok (args.drop (segs.map (fun seg => (matchIndices seg).length)).sum) out') ∧
      (args.length < (segs.map (fun seg => (matchIndices seg).length)).sum →
        runSegs segs args out = .notEnough)) := by
  induction segs with
  | nil =>
    intro args out _
    exact ⟨fun _ => ⟨out, by simp [runSegs]⟩, fun habs => by simp at habs⟩
  | cons seg segs ih =>
    intro args out hall
    have hseg := hall seg (by simp)
    have hall' : ∀ s ∈ segs, matchesOK s (matchIndices s) 0 = true :=
      fun s hs => hall s (List.mem_cons_of_mem _ hs)
    set n := (matchIndices seg).length with hn
    set N := (segs.map (fun seg => (matchIndices seg).length)).sum with hN
    constructor
    · intro hlen
      simp only [List.map_cons, List.sum_cons, ← hn, ← hN] at hlen ⊢
      have h1 : n ≤ args.length := le_trans (Nat.le_add_right n N) hlen
      obtain ⟨out1, ho1⟩ := (runMatches_spec seg (matchIndices seg) 0 args out hseg).1 h1
      have h2 : N ≤ (args.drop n).length := by
        simp [List.length_drop]
        omega
      obtain ⟨out2, ho2⟩ := (ih (args.drop n) out1 hall').1 h2
      refine ⟨out2, ?_⟩
      simp only [runSegs, ho1, ho2, List.drop_drop]
    · intro hlen
      simp only [List.map_cons, List.sum_cons, ← hn, ← hN] at hlen ⊢
      by_cases h1 : n ≤ args.length
      · obtain ⟨out1, ho1⟩ :=
          (runMatches_spec seg (matchIndices seg) 0 args out hseg).1 h1
        have h2 : (args.drop n).length < N := by
          simp [List.length_drop]
          omega
        have := (ih (args.drop n) out1 hall').2 h2
        simp [runSegs, ho1, this]
      · have h1' : args.length < n := Nat.lt_of_not_le h1
        have := (runMatches_spec seg (matchIndices seg) 0 args out hseg).2 h1'
        simp [runSegs, this]

theorem formatF_cases (s : List Char) (args : List Obj)
    (h : segsOK s = true) :
    (args.length < nSpecs s → formatF s args = .notEnough) ∧
    (args.length = nSpecs s → ∃ out, formatF s args = .ok out) ∧
    (nSpecs s < args.length → formatF s args = .tooMany) := by
  simp only [segsOK, List.all_eq_true, decide_eq_true_eq] at h
  have hspec := runSegs_spec (splitPct s) args [] h
  have hN : nSpecs s = ((splitPct s).map (fun seg => (matchIndices seg).length)).sum :=
    rfl
  refine ⟨?_, ?_, ?_⟩
  · intro hlt
    rw [hN] at hlt
    have h2 := hspec.2 hlt
    unfold formatF
    rw [h2]
  · intro heq
    rw [hN] at heq
    obtain ⟨out', ho⟩ := hspec.1 (le_of_eq heq.symm)
    refine ⟨out'.dropLast, ?_⟩
    have hemp :
        (args.drop ((splitPct s).map
          (fun seg => (matchIndices seg).length)).sum).isEmpty = true := by
      rw [List.isEmpty_iff_length_eq_zero, List.length_drop]
      omega
    unfold formatF
    rw [ho]
    simp [hemp]
  · intro hgt
    rw [hN] at hgt
    obtain ⟨out', ho⟩ := hspec.1 (le_of_lt hgt)
    have hemp :
        (args.drop ((splitPct s).map
          (fun seg => (matchIndices seg).length)).sum).isEmpty = false := by
      rw [Bool.eq_false_iff]
      intro habs
      rw [List.isEmpty_iff_length_eq_zero, List.length_drop] at habs
      omega
    unfold formatF
    rw [ho]
    simp [hemp]

end Rune.Fmt

/-- C7 counterexample: the format string `"%"` has exactly one
argument-consuming `%`-specifier, so with one argument the count matches
and the claim predicts success; instead `format` consumes the argument and
panics on an out-of-range slice (it neither succeeds nor returns a
FormatArity error). -/
theorem C7_format_arity_counterexample :
    Rune.Fmt.nSpecs "%".data = 1 ∧
    Rune.Fmt.formatF "%".data [Rune.Obj.int 0] = Rune.Fmt.FmtRes.crash [] :=
  ⟨rfl, rfl⟩

/-- C7 (amended): provided every slice `format` takes stays in bounds and
on character boundaries — in particular no segment ends in an unescaped
`%` — `format(s, args)` fails with the too-few-arguments error iff fewer
arguments than `%`-specifiers were supplied, fails with the
too-many-arguments error iff more were supplied, and succeeds iff the
counts agree. -/
theorem C7_format_arity (s : List Char) (args : List Rune.Obj)
    (h : Rune.Fmt.segsOK s = true) :
    (Rune.Fmt.formatF s args = Rune.Fmt.FmtRes.notEnough ↔
      args.length < Rune.Fmt.nSpecs s) ∧
    (Rune.Fmt.formatF s args = Rune.Fmt.FmtRes.tooMany ↔
      Rune.Fmt.nSpecs s < args.length) ∧
    ((∃ out, Rune.Fmt.formatF s args = Rune.Fmt.FmtRes.ok out) ↔
      args.length = Rune.Fmt.nSpecs s) := by
  have hc := Rune.Fmt.formatF_cases s args h
  rcases Nat.lt_trichotomy args.length (Rune.Fmt.nSpecs s) with hlt | heq | hgt
  · have hne := hc.1 hlt
    refine ⟨⟨fun _ => hlt, fun _ => hne⟩, ⟨?_, ?_⟩, ⟨?_, ?_⟩⟩
    · intro habs; rw [hne] at habs; cases habs
    · intro habs; omega
    · intro hex; obtain ⟨o, ho⟩ := hex; rw [hne] at ho; cases ho
    · intro habs; omega
  · obtain ⟨out, hok⟩ := hc.2.1 heq
    refine ⟨⟨?_, ?_⟩, ⟨?_, ?_⟩, ⟨fun _ => heq, fun _ => ⟨out, hok⟩⟩⟩
    · intro habs; rw [hok] at habs; cases habs
    · intro habs; omega
    · intro habs; rw [hok] at habs; cases habs
    · intro habs; omega
  · have htm := hc.2.2 hgt
    refine ⟨⟨?_, ?_⟩, ⟨fun _ => hgt, fun _ => htm⟩, ⟨?_, ?_⟩⟩
    · intro habs; rw [htm] at habs; cases habs
    · intro habs; omega
    · intro hex; obtain ⟨o, ho⟩ := hex; rw [htm] at ho; cases ho
    · intro habs; omega

/-- C7 witness: the spec's boundary cases `format("%s", [])` (too few)
and `format("%s", [a, b])` (too many) at concrete arguments, plus the
matching-count success `format("%s", [1])`. -/
theorem C7_format_arity_witness :
    Rune.Fmt.segsOK "%s".data = true ∧
    Rune.Fmt.formatF "%s".data [] = Rune.Fmt.FmtRes.notEnough ∧
    Rune.Fmt.formatF "%s".data [Rune.Obj.int 1, Rune.Obj.int 2] =
      Rune.Fmt.FmtRes.tooMany ∧
    Rune.Fmt.formatF "%s".data [Rune.Obj.int 1] = Rune.Fmt.FmtRes.ok "1".data := by
  refine ⟨rfl, ?_, ?_, rfl⟩
  · exact (C7_format_arity "%s".data [] rfl).1.mpr (by decide)
  · exact (C7_format_arity "%s".data [Rune.Obj.int 1, Rune.Obj.int 2] rfl).2.1.mpr
      (by decide)

/-- C9: `format` is not total over its error interface: on the format
string `"abc%"` (whose last character is an unescaped `%` not part of a
`%%` pair) with one argument, the argument is consumed (the crash state
carries no remaining arguments) and the final slice
`segment[last_end..len]` with `last_end = start + 2 = 5 > 4 = len` is out
of range — a panic, not a FormatArity error. -/
theorem C9_format_trailing_pct_panics :
    Rune.Fmt.formatF "abc%".data [Rune.Obj.int 7] =
        Rune.Fmt.FmtRes.crash [] ∧
    Rune.Fmt.matchIndices "abc%".data = [3] ∧
    Rune.Fmt.byteLen "abc%".data = 4 ∧
    Rune.Fmt.sliceB "abc%".data (3 + 2) 4 = none :=
  ⟨rfl, rfl, rfl, rfl⟩

namespace Rune.LO

/-! Embedding of `src/lisp_object.rs`: the 64-bit tagged word `LispObj`,
the `Tag` bit patterns, the variant predicates/accessors, and the
`Fixnum` arithmetic. -/

/-- Source: `Tag::Fixnum = 0b00`. -/
def tagFixnum : Nat := 0b00
/-- Source: `Tag::True = 0b10`. -/
def tagTrue : Nat := 0b10
/-- Source: `Tag::Nil = 0b1010`. -/
def tagNil : Nat := 0b1010
/-- Source: `Tag::Cons = 0b1110`. -/
def tagCons : Nat := 0b1110
/-- Source: `Tag::LongStr = 0b10010`. -/
def tagLongStr : Nat := 0b10010
/-- Source: `Tag::ShortStr = 0b10110`. -/
def tagShortStr : Nat := 0b10110
/-- Source: `Tag::Float = 0b100010`. -/
def tagFloat : Nat := 0b100010
/-- Source: `Tag::Fn = 0x00FE`. -/
def tagFn : Nat := 0x00FE
/-- Source: `Tag::Symbol = 0x01FE`. -/
def tagSymbol : Nat := 0x01FE
/-- Source: `Tag::Void = 0x02FE`. -/
def tagVoid : Nat := 0x02FE
/-- Source: `FIXNUM_MASK = 0b11`. -/
def FIXNUM_MASK : Nat := 0b11
/-- Source: `STRING_MASK = 0b11111`. -/
def STRING_MASK : Nat := 0b11111

/-- A `LispObj` is one 64-bit machine word (`union { tag: u16, bits: u64,
fixnum: Fixnum }`), modelled as its bit pattern. -/
structure LispObj where
  bits : Nat
  deriving Repr, DecidableEq

/-- The `tag` view of the union: the low 16 bits of the word. -/
def low16 (o : LispObj) : Nat := o.bits % 2 ^ 16

/-- Source: `from_tagged_ptr`: `bits = (ptr << TAG_SIZE) | tag` with
`TAG_SIZE = 16`, truncated to the word width. -/
def fromTaggedPtr (ptr tag : Nat) : LispObj :=
  ⟨((ptr <<< 16) ||| tag) % 2 ^ 64⟩

/-- Source: `get_ptr`: `bits >> TAG_SIZE`. -/
def get_ptr (o : LispObj) : Nat := o.bits >>> 16

/-- Two's-complement bit pattern of an `i64` value. -/
def u64ofInt (n : Int) : Nat := (n % 2 ^ 64).toNat

/-- Signed value of a 64-bit pattern. -/
def intOfU64 (b : Nat) : Int := if b < 2 ^ 63 then (b : Int) else (b : Int) - 2 ^ 64

/-- Source: `tag_eq`: full compare of the 16-bit tag view. -/
def tag_eq (o : LispObj) (t : Nat) : Bool := low16 o == t

/-- Source: `tag_masked`: `(self.tag as u16) & mask == tag as u16`. -/
def tag_masked (o : LispObj) (t mask : Nat) : Bool := (low16 o &&& mask) == t

def is_fixnum (o : LispObj) : Bool := tag_masked o tagFixnum FIXNUM_MASK
def is_nil (o : LispObj) : Bool := tag_eq o tagNil
def is_true (o : LispObj) : Bool := tag_eq o tagTrue
def is_void (o : LispObj) : Bool := tag_eq o tagVoid
def is_cons (o : LispObj) : Bool := tag_eq o tagCons
def is_str (o : LispObj) : Bool :=
  tag_masked o tagShortStr STRING_MASK || tag_masked o tagLongStr STRING_MASK
def is_float (o : LispObj) : Bool := tag_eq o tagFloat
def is_symbol (o : LispObj) : Bool := tag_eq o tagSymbol

/-- Source: `as_int`: `Some` of the fixnum value (`rep >> 2`, an arithmetic
shift) exactly when `is_fixnum`. -/
def as_int (o : LispObj) : Option Int :=
  if is_fixnum o then some ((intOfU64 o.bits).fdiv 4) else none

def as_cons (o : LispObj) : Option Nat :=
  if is_cons o then some (get_ptr o) else none

def as_str (o : LispObj) : Option Nat :=
  if is_str o then some (get_ptr o) else none

def as_float (o : LispObj) : Option Nat :=
  if is_float o then some (get_ptr o) else none

def as_symbol (o : LispObj) : Option Nat :=
  if is_symbol o then some (get_ptr o) else none

/-- The constructed `LispObj` values: one constructor per `From`
impl / associated constant of the source (`From<i64>`/`From<Fixnum>`,
`From<f64>`, `From<String>`, `From<Symbol>`, `From<Cons>`,
`From<LispFn>`, `nil()`, `t()`, `void()`; `From<bool>` yields the
`trueV`/`nilV` patterns).  Heap pointers are arbitrary naturals. -/
inductive LispVal where
  | fix (n : Int)
  | flt (ptr : Nat)
  | strV (ptr : Nat)
  | symV (ptr : Nat)
  | consV (ptr : Nat)
  | fnV (ptr : Nat)
  | nilV
  | trueV
  | voidV
  deriving Repr, DecidableEq

/-- The bit pattern each constructor produces. -/
def encode : LispVal → LispObj
  | .fix n => ⟨u64ofInt (4 * n)⟩
  | .flt p => fromTaggedPtr p tagFloat
  | .strV p => fromTaggedPtr p tagLongStr
  | .symV p => fromTaggedPtr p tagSymbol
  | .consV p => fromTaggedPtr p tagCons
  | .fnV p => fromTaggedPtr p tagFn
  | .nilV => ⟨tagNil⟩
  | .trueV => ⟨tagTrue⟩
  | .voidV => ⟨tagVoid⟩

/-- How many of the seven variant predicates named by the claim hold. -/
def predCount (o : LispObj) : Nat :=
  (if is_fixnum o then 1 else 0) + (if is_nil o then 1 else 0) +
  (if is_true o then 1 else 0) + (if is_cons o then 1 else 0) +
  (if is_str o then 1 else 0) + (if is_float o then 1 else 0) +
  (if is_symbol o then 1 else 0)

theorem low16_fromTaggedPtr (p t : Nat) (ht : t < 2 ^ 16) :
    low16 (fromTaggedPtr p t) = t := by
  show ((p <<< 16 ||| t) % 2 ^ 64) % 2 ^ 16 = t
  rw [Nat.mod_mod_of_dvd _ (by norm_num : (2 ^ 16 : Nat) ∣ 2 ^ 64)]
  apply Nat.eq_of_testBit_eq
  intro i
  simp only [Nat.testBit_mod_two_pow, Nat.testBit_or, Nat.testBit_shiftLeft]
  by_cases hi : i < 16
  · simp [hi, Nat.not_le.mpr hi]
  · have hti : t.testBit i = false :=
      Nat.testBit_lt_two_pow
        (lt_of_lt_of_le ht (Nat.pow_le_pow_right (by norm_num) (Nat.le_of_not_lt hi)))
    simp [hi, hti]

theorem low16_fix (n : Int) :
    ∃ j, j < 2 ^ 14 ∧ low16 (encode (LispVal.fix n)) = 4 * j := by
  have hemod : (4 * n) % ((4 : Int) * 2 ^ 62) = 4 * (n % 2 ^ 62) :=
    Int.mul_emod_mul_of_pos _ _ (by norm_num)
  have h64 : ((4 : Int) * 2 ^ 62) = 2 ^ 64 := by norm_num
  rw [h64] at hemod
  have hk0 : 0 ≤ n % 2 ^ 62 := Int.emod_nonneg n (by norm_num)
  have hklt : n % 2 ^ 62 < 2 ^ 62 := Int.emod_lt_of_pos n (by norm_num)
  refine ⟨(n % 2 ^ 62).toNat % 2 ^ 14, by omega, ?_⟩
  show ((4 * n % 2 ^ 64).toNat) % 2 ^ 16 = 4 * ((n % 2 ^ 62).toNat % 2 ^ 14)
  rw [hemod]
  omega

theorem preds_of_low16 (o : LispObj) (w : Nat) (h : low16 o = w) :
    is_fixnum o = decide (w % 4 = 0) ∧ is_nil o = decide (w = 10) ∧
    is_true o = decide (w = 2) ∧ is_cons o = decide (w = 14) ∧
    is_str o = (decide (w % 32 = 22) || decide (w % 32 = 18)) ∧
    is_float o = decide (w = 34) ∧ is_symbol o = decide (w = 510) := by
  have hand : ∀ (x k : Nat), x &&& (2 ^ k - 1) = x % 2 ^ k := fun x k =>
    Nat.and_pow_two_sub_one_eq_mod x k
  have h3 : ∀ x : Nat, x &&& 3 = x % 4 := fun x => by
    have := hand x 2; norm_num at this; exact this
  have h31 : ∀ x : Nat, x &&& 31 = x % 32 := fun x => by
    have := hand x 5; norm_num at this; exact this
  have hbd : ∀ a b : Nat, (a == b) = decide (a = b) := fun a b => by
    by_cases hab : a = b <;> simp [hab]
  unfold is_fixnum is_nil is_true is_cons is_str is_float is_symbol tag_eq tag_masked
    tagFixnum tagNil tagTrue tagCons tagShortStr tagLongStr tagFloat tagSymbol
    FIXNUM_MASK STRING_MASK
  rw [h, h3, h31]
  exact ⟨hbd _ _, hbd _ _, hbd _ _, hbd _ _, by rw [hbd (w % 32) 22, hbd (w % 32) 18],
    hbd _ _, hbd _ _⟩

theorem predCount_of_low16 (o : LispObj) (w : Nat) (h : low16 o = w) :
    predCount o =
      (if w % 4 = 0 then 1 else 0) + (if w = 10 then 1 else 0) +
      (if w = 2 then 1 else 0) + (if w = 14 then 1 else 0) +
      (if w % 32 = 22 ∨ w % 32 = 18 then 1 else 0) +
      (if w = 34 then 1 else 0) + (if w = 510 then 1 else 0) := by
  obtain ⟨h1, h2, h3, h4, h5, h6, h7⟩ := preds_of_low16 o w h
  unfold predCount
  rw [h1, h2, h3, h4, h5, h6, h7]
  simp only [Bool.or_eq_true, decide_eq_true_eq]

theorem predCount_encode (v : LispVal) :
    predCount (encode v) =
      (match v with
       | .fnV _ => 0
       | .voidV => 0
       | _ => 1) := by
  cases v with
  | fix n =>
    obtain ⟨j, hj, hl⟩ := low16_fix n
    rw [predCount_of_low16 _ _ hl]
    have e1 : 4 * j % 4 = 0 := by omega
    have e2 : ¬(4 * j = 10) := by omega
    have e3 : ¬(4 * j = 2) := by omega
    have e4 : ¬(4 * j = 14) := by omega
    have e5 : ¬(4 * j % 32 = 22 ∨ 4 * j % 32 = 18) := by omega
    have e6 : ¬(4 * j = 34) := by omega
    have e7 : ¬(4 * j = 510) := by omega
    simp [e1, e2, e3, e4, e5, e6, e7]
  | flt p =>
    show predCount (fromTaggedPtr p tagFloat) = 1
    rw [predCount_of_low16 _ _ (low16_fromTaggedPtr p tagFloat (by decide))]
    decide
  | strV p =>
    show predCount (fromTaggedPtr p tagLongStr) = 1
    rw [predCount_of_low16 _ _ (low16_fromTaggedPtr p tagLongStr (by decide))]
    decide
  | symV p =>
    show predCount (fromTaggedPtr p tagSymbol) = 1
    rw [predCount_of_low16 _ _ (low16_fromTaggedPtr p tagSymbol (by decide))]
    decide
  | consV p =>
    show predCount (fromTaggedPtr p tagCons) = 1
    rw [predCount_of_low16 _ _ (low16_fromTaggedPtr p tagCons (by decide))]
    decide
  | fnV p =>
    show predCount (fromTaggedPtr p tagFn) = 0
    rw [predCount_of_low16 _ _ (low16_fromTaggedPtr p tagFn (by decide))]
    decide
  | nilV => decide
  | trueV => decide
  | voidV => decide

theorem accessors_gated (o : LispObj) :
    (as_int o).isSome = is_fixnum o ∧ (as_cons o).isSome = is_cons o ∧
    (as_str o).isSome = is_str o ∧ (as_float o).isSome = is_float o ∧
    (as_symbol o).isSome = is_symbol o :=
  ⟨by cases h : is_fixnum o <;> simp [as_int, h],
   by cases h : is_cons o <;> simp [as_cons, h],
   by cases h : is_str o <;> simp [as_str, h],
   by cases h : is_float o <;> simp [as_float, h],
   by cases h : is_symbol o <;> simp [as_symbol, h]⟩

/-! `Fixnum` arithmetic (`impl ops::Add/Sub/Mul/Div for Fixnum` and the
`From` conversions).  The numeric operations on the `i64` representation
wrap in two's complement (release-mode Rust semantics, and the behaviour
§4.1 of the spec mandates). -/

/-- Wrap to a signed 64-bit value. -/
def wrap64 (x : Int) : Int := (x + 2 ^ 63) % 2 ^ 64 - 2 ^ 63

/-- Wrap to the 62-bit fixnum value range. -/
def wrap62 (x : Int) : Int := (x + 2 ^ 61) % 2 ^ 62 - 2 ^ 61

/-- Source: `Fixnum(i64)`: `rep` is the stored (pre-shifted) representation. -/
structure Fixnum where
  rep : Int
  deriving Repr, DecidableEq

/-- Source: `From<i64> for Fixnum`: `Fixnum(i << 2)`, a wrapping left shift. -/
def Fixnum.ofI64 (i : Int) : Fixnum := ⟨wrap64 (4 * i)⟩

/-- Source: `From<Fixnum> for i64`: `f.0 >> 2`, an arithmetic right shift
(floor division by 4). -/
def Fixnum.toI64 (f : Fixnum) : Int := f.rep.fdiv 4

/-- Source: `Add`: `Self(self.0 + rhs.0)`. -/
def Fixnum.add (a b : Fixnum) : Fixnum := ⟨wrap64 (a.rep + b.rep)⟩

/-- Source: `Sub`: `Self(self.0 - rhs.0)`. -/
def Fixnum.sub (a b : Fixnum) : Fixnum := ⟨wrap64 (a.rep - b.rep)⟩

/-- Source: `Mul`: `Self(self.0 * i64::from(rhs))`. -/
def Fixnum.mul (a b : Fixnum) : Fixnum := ⟨wrap64 (a.rep * b.rep.fdiv 4)⟩

/-- Source: `Div`: `(self.0 / rhs.0).into()`; Rust `/` on `i64` truncates toward
zero (`Int.tdiv`). -/
def Fixnum.divF (a b : Fixnum) : Fixnum := Fixnum.ofI64 (a.rep.tdiv b.rep)

/-- The fixnum value range: one 64-bit word minus the two tag bits. -/
def inFixnumRange (n : Int) : Prop := -(2 ^ 61) ≤ n ∧ n < 2 ^ 61

instance (n : Int) : Decidable (inFixnumRange n) := by
  unfold inFixnumRange
  infer_instance

theorem wrap64_four_mul (k : Int) : wrap64 (4 * k) = 4 * wrap62 k := by
  unfold wrap64 wrap62
  have hemod : (4 * (k + 2 ^ 61)) % ((4 : Int) * 2 ^ 62) =
      4 * ((k + 2 ^ 61) % 2 ^ 62) :=
    Int.mul_emod_mul_of_pos _ _ (by norm_num)
  have h1 : 4 * k + 2 ^ 63 = 4 * (k + 2 ^ 61) := by ring
  have h2 : ((4 : Int) * 2 ^ 62) = 2 ^ 64 := by norm_num
  rw [h1, ← h2, hemod]
  ring

theorem ofI64_rep (n : Int) : (Fixnum.ofI64 n).rep = 4 * wrap62 n :=
  wrap64_four_mul n

theorem toI64_ofI64 (n : Int) : (Fixnum.ofI64 n).toI64 = wrap62 n := by
  show (Fixnum.ofI64 n).rep.fdiv 4 = wrap62 n
  rw [ofI64_rep]
  exact Int.mul_fdiv_cancel_left _ (by norm_num)

theorem wrap62_eq_of_range (n : Int) (h1 : -(2 ^ 61) ≤ n) (h2 : n < 2 ^ 61) :
    wrap62 n = n := by
  unfold wrap62
  omega

theorem wrap62_add (a b : Int) : wrap62 (wrap62 a + wrap62 b) = wrap62 (a + b) := by
  unfold wrap62
  omega

theorem wrap62_sub (a b : Int) : wrap62 (wrap62 a - wrap62 b) = wrap62 (a - b) := by
  unfold wrap62
  omega

theorem add_toI64 (a b : Int) :
    ((Fixnum.ofI64 a).add (Fixnum.ofI64 b)).toI64 = wrap62 (a + b) := by
  show (wrap64 ((Fixnum.ofI64 a).rep + (Fixnum.ofI64 b).rep)).fdiv 4 = _
  rw [ofI64_rep, ofI64_rep,
    show 4 * wrap62 a + 4 * wrap62 b = 4 * (wrap62 a + wrap62 b) from by ring,
    wrap64_four_mul, Int.mul_fdiv_cancel_left _ (by norm_num), wrap62_add]

theorem sub_toI64 (a b : Int) :
    ((Fixnum.ofI64 a).sub (Fixnum.ofI64 b)).toI64 = wrap62 (a - b) := by
  show (wrap64 ((Fixnum.ofI64 a).rep - (Fixnum.ofI64 b).rep)).fdiv 4 = _
  rw [ofI64_rep, ofI64_rep,
    show 4 * wrap62 a - 4 * wrap62 b = 4 * (wrap62 a - wrap62 b) from by ring,
    wrap64_four_mul, Int.mul_fdiv_cancel_left _ (by norm_num), wrap62_sub]

theorem mul_toI64 (a b : Int) (ha : inFixnumRange a) (hb : inFixnumRange b) :
    ((Fixnum.ofI64 a).mul (Fixnum.ofI64 b)).toI64 = wrap62 (a * b) := by
  obtain ⟨ha1, ha2⟩ := ha
  obtain ⟨hb1, hb2⟩ := hb
  have hwa : wrap62 a = a := wrap62_eq_of_range a ha1 ha2
  have hwb : wrap62 b = b := wrap62_eq_of_range b hb1 hb2
  show (wrap64 ((Fixnum.ofI64 a).rep * (Fixnum.ofI64 b).rep.fdiv 4)).fdiv 4 = _
  rw [ofI64_rep, ofI64_rep, Int.mul_fdiv_cancel_left _ (by norm_num), hwa, hwb,
    show 4 * a * b = 4 * (a * b) from by ring,
    wrap64_four_mul, Int.mul_fdiv_cancel_left _ (by norm_num)]

theorem tdiv_four_mul (a b : Int) : (4 * a).tdiv (4 * b) = a.tdiv b := by
  have hof : ∀ m : Nat, (4 : Int) * Int.ofNat m = Int.ofNat (4 * m) := fun m => by
    simp [Int.ofNat_mul_ofNat]
  have hns : ∀ m : Nat, (4 : Int) * Int.negSucc m = Int.negSucc (4 * m + 3) :=
    fun m => by
      rw [Int.negSucc_eq, Int.negSucc_eq]
      push_cast
      ring
  rcases a with m | m <;> rcases b with n | n
  · rw [hof, hof]
    show Int.ofNat (4 * m / (4 * n)) = Int.ofNat (m / n)
    rw [Nat.mul_div_mul_left m n (by norm_num)]
  · rw [hof, hns]
    show -Int.ofNat (4 * m / (4 * n + 3).succ) = -Int.ofNat (m / n.succ)
    have hs : (4 * n + 3).succ = 4 * n.succ := by omega
    rw [hs, Nat.mul_div_mul_left m n.succ (by norm_num)]
  · rw [hns, hof]
    show -Int.ofNat ((4 * m + 3).succ / (4 * n)) = -Int.ofNat (m.succ / n)
    have hs : (4 * m + 3).succ = 4 * m.succ := by omega
    rw [hs, Nat.mul_div_mul_left m.succ n (by norm_num)]
  · rw [hns, hns]
    show Int.ofNat ((4 * m + 3).succ / (4 * n + 3).succ) =
      Int.ofNat (m.succ / n.succ)
    have hs1 : (4 * m + 3).succ = 4 * m.succ := by omega
    have hs2 : (4 * n + 3).succ = 4 * n.succ := by omega
    rw [hs1, hs2, Nat.mul_div_mul_left m.succ n.succ (by norm_num)]

theorem div_toI64 (a b : Int) (ha : inFixnumRange a) (hb : inFixnumRange b)
    (_hb0 : b ≠ 0) :
    ((Fixnum.ofI64 a).divF (Fixnum.ofI64 b)).toI64 = wrap62 (a.tdiv b) := by
  obtain ⟨ha1, ha2⟩ := ha
  obtain ⟨hb1, hb2⟩ := hb
  have hwa : wrap62 a = a := wrap62_eq_of_range a ha1 ha2
  have hwb : wrap62 b = b := wrap62_eq_of_range b hb1 hb2
  unfold Fixnum.divF
  rw [toI64_ofI64, ofI64_rep, ofI64_rep, hwa, hwb, tdiv_four_mul]

end Rune.LO

namespace Rune.LO

/-- C3 counterexample: `LispObj::void()` and function objects
(`Tag::Fn`) are constructible, yet satisfy none of the seven listed
variant predicates — so it is false that exactly one of them holds for
every constructed `LispObj`. -/
theorem C3_counterexample :
    predCount (encode LispVal.voidV) = 0 ∧
    predCount (encode (LispVal.fnV 0)) = 0 ∧
    is_void (encode LispVal.voidV) = true := by
  refine ⟨by decide, ?_, by decide⟩
  show predCount (fromTaggedPtr 0 tagFn) = 0
  rw [predCount_of_low16 _ _ (low16_fromTaggedPtr 0 tagFn (by decide))]
  decide

/-- C3 (amended): the tag encoding is disjoint but not total over the
seven listed predicates: every constructed `LispObj` satisfies at most
one of fixnum/nil/true/cons/string/float/symbol; a value constructed as
one of those seven variants satisfies exactly its own predicate; values
constructed with `Tag::Fn` or as `void()` satisfy none of the seven; and
each `as_*` accessor returns `Some` exactly when its own variant
predicate holds. -/
theorem C3_tag_disjointness :
    (∀ v : LispVal, predCount (encode v) ≤ 1) ∧
    (∀ n : Int, is_fixnum (encode (LispVal.fix n)) = true ∧
      predCount (encode (LispVal.fix n)) = 1) ∧
    (∀ p : Nat, is_cons (encode (LispVal.consV p)) = true ∧
      predCount (encode (LispVal.consV p)) = 1) ∧
    (∀ p : Nat, is_str (encode (LispVal.strV p)) = true ∧
      predCount (encode (LispVal.strV p)) = 1) ∧
    (∀ p : Nat, is_float (encode (LispVal.flt p)) = true ∧
      predCount (encode (LispVal.flt p)) = 1) ∧
    (∀ p : Nat, is_symbol (encode (LispVal.symV p)) = true ∧
      predCount (encode (LispVal.symV p)) = 1) ∧
    (is_nil (encode LispVal.nilV) = true ∧ predCount (encode LispVal.nilV) = 1) ∧
    (is_true (encode LispVal.trueV) = true ∧
      predCount (encode LispVal.trueV) = 1) ∧
    (∀ p : Nat, predCount (encode (LispVal.fnV p)) = 0) ∧
    (predCount (encode LispVal.voidV) = 0) ∧
    (∀ o : LispObj, (as_int o).isSome = is_fixnum o ∧
      (as_cons o).isSome = is_cons o ∧ (as_str o).isSome = is_str o ∧
      (as_float o).isSome = is_float o ∧ (as_symbol o).isSome = is_symbol o) := by
  refine ⟨?_, ?_, ?_, ?_, ?_, ?_, ?_, ?_, ?_, ?_, accessors_gated⟩
  · intro v
    rw [predCount_encode]
    cases v <;> simp
  · intro n
    obtain ⟨j, hj, hl⟩ := low16_fix n
    refine ⟨?_, predCount_encode (LispVal.fix n)⟩
    rw [(preds_of_low16 _ _ hl).1, decide_eq_true_eq]
    omega
  · intro p
    refine ⟨?_, predCount_encode (LispVal.consV p)⟩
    have h := (preds_of_low16 (encode (LispVal.consV p)) 14
      (low16_fromTaggedPtr p tagCons (by decide))).2.2.2.1
    rw [h]
    decide
  · intro p
    refine ⟨?_, predCount_encode (LispVal.strV p)⟩
    have h := (preds_of_low16 (encode (LispVal.strV p)) 18
      (low16_fromTaggedPtr p tagLongStr (by decide))).2.2.2.2.1
    rw [h]
    decide
  · intro p
    refine ⟨?_, predCount_encode (LispVal.flt p)⟩
    have h := (preds_of_low16 (encode (LispVal.flt p)) 34
      (low16_fromTaggedPtr p tagFloat (by decide))).2.2.2.2.2.1
    rw [h]
    decide
  · intro p
    refine ⟨?_, predCount_encode (LispVal.symV p)⟩
    have h := (preds_of_low16 (encode (LispVal.symV p)) 510
      (low16_fromTaggedPtr p tagSymbol (by decide))).2.2.2.2.2.2
    rw [h]
    decide
  · exact ⟨by decide, predCount_encode LispVal.nilV⟩
  · exact ⟨by decide, predCount_encode LispVal.trueV⟩
  · intro p
    exact predCount_encode (LispVal.fnV p)
  · exact predCount_encode LispVal.voidV

/-- C5 counterexample: adding the fixnum `2^60` to itself — a result
mathematically outside the fixnum range — silently wraps to `-(2^61)`;
the arithmetic operators return a plain `Fixnum` and no error kind
exists (§7 lists none for overflow, and the code has none). -/
theorem C5_counterexample :
    ((Fixnum.ofI64 (2 ^ 60)).add (Fixnum.ofI64 (2 ^ 60))).toI64 = -(2 ^ 61) ∧
    ¬inFixnumRange (2 ^ 60 + 2 ^ 60) := by
  constructor
  · rw [add_toI64]
    decide
  · decide

/-- C5 (amended): fixnum arithmetic and the `i64` conversion are
wrapping two's-complement over the 62-bit fixnum range (word minus the
two tag bits): conversion round-trips exactly on the fixnum range, and
addition, subtraction, multiplication and division of in-range values
produce the mathematically correct result wrapped into the fixnum range
— silently, with no overflow error. -/
theorem C5_fixnum_arith :
    (∀ n : Int, (Fixnum.ofI64 n).toI64 = wrap62 n) ∧
    (∀ n : Int, inFixnumRange n → (Fixnum.ofI64 n).toI64 = n) ∧
    (∀ a b : Int, ((Fixnum.ofI64 a).add (Fixnum.ofI64 b)).toI64 = wrap62 (a + b)) ∧
    (∀ a b : Int, ((Fixnum.ofI64 a).sub (Fixnum.ofI64 b)).toI64 = wrap62 (a - b)) ∧
    (∀ a b : Int, inFixnumRange a → inFixnumRange b →
      ((Fixnum.ofI64 a).mul (Fixnum.ofI64 b)).toI64 = wrap62 (a * b)) ∧
    (∀ a b : Int, inFixnumRange a → inFixnumRange b → b ≠ 0 →
      ((Fixnum.ofI64 a).divF (Fixnum.ofI64 b)).toI64 = wrap62 (a.tdiv b)) :=
  ⟨toI64_ofI64,
   fun n hn => by rw [toI64_ofI64]; exact wrap62_eq_of_range n hn.1 hn.2,
   add_toI64, sub_toI64, mul_toI64, div_toI64⟩

/-- C5 witness: concrete instantiations of the hypotheses: round-trip at
`6`, multiplication and division at `6` and `-3`. -/
theorem C5_fixnum_arith_witness :
    inFixnumRange 6 ∧ inFixnumRange (-3) ∧ (-3 : Int) ≠ 0 ∧
    (Fixnum.ofI64 6).toI64 = 6 ∧
    ((Fixnum.ofI64 6).mul (Fixnum.ofI64 (-3))).toI64 = wrap62 (6 * -3) ∧
    ((Fixnum.ofI64 6).divF (Fixnum.ofI64 (-3))).toI64 = wrap62 (Int.tdiv 6 (-3)) := by
  refine ⟨by decide, by decide, by decide, ?_, ?_, ?_⟩
  · exact C5_fixnum_arith.2.1 6 (by decide)
  · exact C5_fixnum_arith.2.2.2.2.1 6 (-3) (by decide) (by decide)
  · exact C5_fixnum_arith.2.2.2.2.2 6 (-3) (by decide) (by decide) (by decide)

end Rune.LO

namespace Rune.Err

/-! Embedding of `src/core/error.rs`: the shared `Error` enum and its
`Display` implementation. -/

/-- The `Type` enum of `src/core/error.rs`. -/
inductive EType where
  | Int | True | Nil | Cons | Vec | HashTable | Sequence | String | Symbol
  | Float | Func | Number | List
  deriving Repr, DecidableEq

/-- Rust `#[derive(Debug)]` on `Type` prints the bare variant name. -/
def etypeDebug : EType → String
  | .Int => "Int"
  | .True => "True"
  | .Nil => "Nil"
  | .Cons => "Cons"
  | .Vec => "Vec"
  | .HashTable => "HashTable"
  | .Sequence => "Sequence"
  | .String => "String"
  | .Symbol => "Symbol"
  | .Float => "Float"
  | .Func => "Func"
  | .Number => "Number"
  | .List => "List"

/-- The `Error` enum: `ArgCount(u16, u16, String)` and
`Type(Type, Type, String)`.  The `u16` counts are naturals (their display
is the decimal numeral either way). -/
inductive Error where
  | argCount (expected actual : Nat) (name : String)
  | typeErr (expected actual : EType) (printed : String)
  deriving Repr, DecidableEq

/-- The `Display` impl: the exact `write!` format strings of the source. -/
def errDisplay : Error → String
  | .argCount exp act name =>
    "Expected " ++ toString exp ++ " argument(s) for `" ++ name ++
      "', but found " ++ toString act
  | .typeErr exp act print =>
    "expected " ++ etypeDebug exp ++ ", found " ++ etypeDebug act ++ ": " ++ print

end Rune.Err

/-- C8: a printed `ArgCount(expected, actual, name)` error reads exactly
``Expected EXPECTED argument(s) for `NAME', but found ACTUAL`` and a
printed `Type(expected, actual, printed)` error reads
`expected EXPECTED, found ACTUAL: PRINTED`, with the fields substituted
(counts in decimal, types by their variant name). -/
theorem C8_error_display (exp act : Nat) (name : String)
    (texp tact : Rune.Err.EType) (printed : String) :
    Rune.Err.errDisplay (Rune.Err.Error.argCount exp act name) =
      "Expected " ++ toString exp ++ " argument(s) for `" ++ name ++
        "', but found " ++ toString act ∧
    Rune.Err.errDisplay (Rune.Err.Error.typeErr texp tact printed) =
      "expected " ++ Rune.Err.etypeDebug texp ++ ", found " ++
        Rune.Err.etypeDebug tact ++ ": " ++ printed ∧
    Rune.Err.errDisplay (Rune.Err.Error.argCount 2 3 "apply") =
      "Expected 2 argument(s) for `apply', but found 3" ∧
    Rune.Err.errDisplay
        (Rune.Err.Error.typeErr Rune.Err.EType.String Rune.Err.EType.Int "5") =
      "expected String, found Int: 5" :=
  ⟨rfl, rfl, rfl, rfl⟩

namespace Rune.RootG

/-! Embedding of `src/core/gc/root.rs`: the `Root` guard's
initialisation/drop discipline against the root-set stack.  The root set
is the `Vec` of traced pointers; it is modelled with its top at the list
head.  A Rust `panic!`/failed `assert!` is modelled as the `none` /
dedicated result constructor. -/

/-- The state of a `Root` guard: `data` starts as a null pointer
(`Root::new`) and becomes non-null at `Root::init`.  `initialized`
models `!self.data.is_null()`. -/
structure RootSt where
  initialized : Bool
  deriving Repr, DecidableEq

/-- Source: `Root::new`: `data: ptr::null_mut()`. -/
def rootNew : RootSt := ⟨false⟩

/-- Source: `Root::init`: `assert!(root.data.is_null(), "Attempt to reinit Root")`
(modelled as `none`), then push the traced pointer onto the root set.
Returns the guard state and the new root set. -/
def rootInit (r : RootSt) (ptr : Nat) (roots : List Nat) :
    Option (RootSt × List Nat) :=
  if r.initialized then none
  else some (⟨true⟩, ptr :: roots)

/-- Outcome of `Drop for Root`. -/
inductive DropRes where
  /-- Source: `panic!("Error: Root was dropped while still not set")`. -/
  | panicked
  /-- Source: `eprintln!` of the same message — no panic, root set untouched. -/
  | printedError (roots : List Nat)
  /-- normal drop: `self.root_set.roots.borrow_mut().pop()`. -/
  | popped (roots : List Nat)
  deriving Repr, DecidableEq

/-- Source: `Drop for Root`: if `data` is null, panic — unless the thread is
already panicking, in which case only an error line is printed;
otherwise pop the top of the root set. -/
def rootDrop (r : RootSt) (panicking : Bool) (roots : List Nat) : DropRes :=
  if r.initialized then .popped roots.tail
  else if panicking then .printedError roots
  else .panicked

end Rune.RootG

/-- C4 counterexample: a guard created by `Root::new` and never
initialised, dropped while the thread is already unwinding from another
panic, does NOT panic: it only prints an error message, contradicting
the claim that dropping an uninitialised guard always aborts with a
panic. -/
theorem C4_root_guard_counterexample :
    Rune.RootG.rootDrop Rune.RootG.rootNew true [] =
      Rune.RootG.DropRes.printedError [] ∧
    Rune.RootG.DropRes.printedError [] ≠ Rune.RootG.DropRes.panicked :=
  ⟨rfl, by decide⟩

/-- C4 (amended): dropping an uninitialised `Root` guard panics unless
the thread is already panicking (then it only prints a diagnostic and
leaves the root set untouched); `Root::init` on an already-initialised
guard panics; a guard initialised exactly once pushes exactly one entry
onto the root set at initialisation and its drop pops exactly one entry. -/
theorem C4_root_guard_discipline (ptr : Nat) (roots : List Nat)
    (panicking : Bool) :
    (Rune.RootG.rootDrop Rune.RootG.rootNew false roots =
      Rune.RootG.DropRes.panicked) ∧
    (Rune.RootG.rootDrop Rune.RootG.rootNew true roots =
      Rune.RootG.DropRes.printedError roots) ∧
    (∀ r : Rune.RootG.RootSt, r.initialized = true →
      Rune.RootG.rootInit r ptr roots = none) ∧
    (Rune.RootG.rootInit Rune.RootG.rootNew ptr roots =
      some (⟨true⟩, ptr :: roots) ∧
      (ptr :: roots).length = roots.length + 1) ∧
    (∀ r : Rune.RootG.RootSt, r.initialized = true →
      Rune.RootG.rootDrop r panicking roots =
        Rune.RootG.DropRes.popped roots.tail ∧
        roots.tail.length = roots.length - 1) := by
  refine ⟨rfl, rfl, ?_, ⟨rfl, by simp⟩, ?_⟩
  · intro r hr
    unfold Rune.RootG.rootInit
    rw [hr]
    simp
  · intro r hr
    constructor
    · unfold Rune.RootG.rootDrop
      rw [hr]
      simp
    · simp [List.length_tail]

/-- C4 witness: the init-then-drop life cycle of a single guard over the
root set `[7]`, with concrete pointer `9`. -/
theorem C4_root_guard_discipline_witness :
    Rune.RootG.rootInit ⟨true⟩ 9 [7] = none ∧
    Rune.RootG.rootInit Rune.RootG.rootNew 9 [7] = some (⟨true⟩, [9, 7]) ∧
    Rune.RootG.rootDrop ⟨true⟩ false [9, 7] =
      Rune.RootG.DropRes.popped [7] := by
  have h := C4_root_guard_discipline 9 [7] false
  have h2 := C4_root_guard_discipline 9 [9, 7] false
  exact ⟨h.2.2.1 ⟨true⟩ rfl, h.2.2.2.1.1, (h2.2.2.2.2 ⟨true⟩ rfl).1⟩

namespace Rune.Buf

/-! Embedding of `src/core/object/buffer.rs`: the gap buffer.  `storage`
is the byte array; the gap is `storage[gap_start..gap_end]`. -/

/-- Source: `Buffer { storage, gap_start, gap_end }`. -/
structure Buffer where
  storage : List Nat
  gap_start : Nat
  gap_end : Nat
  deriving Repr, DecidableEq

/-- Source: `GAP_SIZE = 5`. -/
def GAP_SIZE : Nat := 5

/-- Source: `Buffer::new(data)`: `GAP_SIZE` zero bytes followed by the data
bytes, gap at the front. -/
def Buffer.mkNew (data : List Nat) : Buffer :=
  ⟨List.replicate GAP_SIZE 0 ++ data, 0, GAP_SIZE⟩

/-- Source: `Buffer::grow(slice)`: reallocate as
pre-gap ++ slice ++ fresh gap ++ post-gap. -/
def Buffer.grow (b : Buffer) (slice : List Nat) : Buffer :=
  ⟨b.storage.take b.gap_start ++ slice ++ List.replicate GAP_SIZE 0 ++
     b.storage.drop b.gap_end,
   b.gap_start + slice.length,
   b.gap_start + slice.length + GAP_SIZE⟩

/-- Source: `Buffer::insert_string(slice)`: grow when the gap is strictly
smaller than the slice, else overwrite the start of the gap. -/
def Buffer.insert_string (b : Buffer) (slice : List Nat) : Buffer :=
  if b.gap_end - b.gap_start < slice.length then b.grow slice
  else
    ⟨b.storage.take b.gap_start ++ slice ++
       b.storage.drop (b.gap_start + slice.length),
     b.gap_start + slice.length, b.gap_end⟩

/-- Rust `str::is_char_boundary` on UTF-8 bytes: true at 0 and at the
length; inside, true iff the byte is not a continuation byte. -/
def isCharBoundary (bytes : List Nat) (idx : Nat) : Bool :=
  if idx = 0 then true
  else
    match bytes[idx]? with
    | none => idx == bytes.length
    | some b => decide (b < 0x80) || decide (0xC0 ≤ b)

/-- Source: `Buffer::delete(size)`: move `gap_start` back by at most `size`
bytes (`saturating_sub`); the `assert!` that the new index is a char
boundary of the pre-gap text is modelled as `none`. -/
def Buffer.delete (b : Buffer) (size : Nat) : Option Buffer :=
  let s := b.storage.take b.gap_start
  let idx := s.length - size
  if isCharBoundary s idx then some ⟨b.storage, idx, b.gap_end⟩ else none

/-- The structural invariant `gap_start ≤ gap_end ≤ storage.len()`. -/
def Buffer.wf (b : Buffer) : Prop :=
  b.gap_start ≤ b.gap_end ∧ b.gap_end ≤ b.storage.length

instance (b : Buffer) : Decidable b.wf := by
  unfold Buffer.wf
  infer_instance

/-- Logical content: the bytes before the gap then the bytes after it. -/
def Buffer.content (b : Buffer) : List Nat :=
  b.storage.take b.gap_start ++ b.storage.drop b.gap_end

theorem drop_append_ge (l1 l2 : List Nat) (n : Nat) (h : l1.length ≤ n) :
    (l1 ++ l2).drop n = l2.drop (n - l1.length) := by
  induction l1 generalizing n with
  | nil => simp
  | cons a l ih =>
    cases n with
    | zero => simp at h
    | succ m =>
      simp only [List.length_cons] at h
      simp only [List.cons_append, List.drop_succ_cons, List.length_cons]
      rw [ih m (by omega)]
      congr 1
      omega

theorem mkNew_spec (data : List Nat) :
    (Buffer.mkNew data).wf ∧ (Buffer.mkNew data).content = data ∧
    (Buffer.mkNew data).gap_start = 0 ∧
    (Buffer.mkNew data).gap_end - (Buffer.mkNew data).gap_start = GAP_SIZE := by
  refine ⟨⟨by simp [Buffer.mkNew, GAP_SIZE], by simp [Buffer.mkNew, GAP_SIZE]⟩,
    ?_, rfl, rfl⟩
  show List.take 0 _ ++ List.drop GAP_SIZE (List.replicate GAP_SIZE 0 ++ data) = data
  rw [List.take_zero, List.nil_append,
    List.drop_left' (by simp : (List.replicate GAP_SIZE (0 : Nat)).length = GAP_SIZE)]

theorem insert_spec (b : Buffer) (slice : List Nat) (h : b.wf) :
    (b.insert_string slice).wf ∧
    (b.insert_string slice).content =
      b.storage.take b.gap_start ++ slice ++ b.storage.drop b.gap_end ∧
    (slice.length ≤ b.gap_end - b.gap_start →
      (b.insert_string slice).storage.length = b.storage.length) ∧
    (b.gap_end - b.gap_start < slice.length →
      (b.insert_string slice).storage.length =
        b.gap_start + slice.length + GAP_SIZE +
          (b.storage.length - b.gap_end)) := by
  obtain ⟨h1, h2⟩ := h
  have hA : (b.storage.take b.gap_start).length = b.gap_start := by
    simp [List.length_take]
    omega
  by_cases hg : b.gap_end - b.gap_start < slice.length
  · -- grow path
    have heq : b.insert_string slice = b.grow slice := by
      unfold Buffer.insert_string
      rw [if_pos hg]
    rw [heq]
    have hAS : (b.storage.take b.gap_start ++ slice).length =
        b.gap_start + slice.length := by
      simp [hA]
    have hASR : (b.storage.take b.gap_start ++ slice ++
        List.replicate GAP_SIZE (0 : Nat)).length =
        b.gap_start + slice.length + GAP_SIZE := by
      simp [hA, GAP_SIZE]
      omega
    refine ⟨⟨by simp [Buffer.grow], ?_⟩, ?_, ?_, ?_⟩
    · show b.gap_start + slice.length + GAP_SIZE ≤
        (b.storage.take b.gap_start ++ slice ++ List.replicate GAP_SIZE 0 ++
          b.storage.drop b.gap_end).length
      simp [hA, GAP_SIZE]
      omega
    · show (b.storage.take b.gap_start ++ slice ++ List.replicate GAP_SIZE 0 ++
          b.storage.drop b.gap_end).take (b.gap_start + slice.length) ++
        (b.storage.take b.gap_start ++ slice ++ List.replicate GAP_SIZE 0 ++
          b.storage.drop b.gap_end).drop (b.gap_start + slice.length + GAP_SIZE) =
        b.storage.take b.gap_start ++ slice ++ b.storage.drop b.gap_end
      rw [show b.storage.take b.gap_start ++ slice ++ List.replicate GAP_SIZE 0 ++
          b.storage.drop b.gap_end =
          (b.storage.take b.gap_start ++ slice) ++
            (List.replicate GAP_SIZE 0 ++ b.storage.drop b.gap_end) from by
        simp [List.append_assoc]]
      rw [List.take_left' hAS]
      rw [show (b.storage.take b.gap_start ++ slice) ++
          (List.replicate GAP_SIZE 0 ++ b.storage.drop b.gap_end) =
          (b.storage.take b.gap_start ++ slice ++ List.replicate GAP_SIZE 0) ++
            b.storage.drop b.gap_end from by simp [List.append_assoc]]
      rw [List.drop_left' hASR, List.append_assoc]
    · intro habs
      omega
    · intro _
      show (b.storage.take b.gap_start ++ slice ++ List.replicate GAP_SIZE 0 ++
          b.storage.drop b.gap_end).length = _
      simp [hA, GAP_SIZE]
      omega
  · -- in-place path
    have hle : slice.length ≤ b.gap_end - b.gap_start := Nat.le_of_not_lt hg
    have heq : b.insert_string slice =
        ⟨b.storage.take b.gap_start ++ slice ++
           b.storage.drop (b.gap_start + slice.length),
         b.gap_start + slice.length, b.gap_end⟩ := by
      unfold Buffer.insert_string
      rw [if_neg hg]
    rw [heq]
    have hAS : (b.storage.take b.gap_start ++ slice).length =
        b.gap_start + slice.length := by
      simp [hA]
    have hlen : (b.storage.take b.gap_start ++ slice ++
        b.storage.drop (b.gap_start + slice.length)).length =
        b.storage.length := by
      simp [hA]
      omega
    refine ⟨⟨?_, ?_⟩, ?_, fun _ => hlen, fun habs => absurd habs hg⟩
    · show b.gap_start + slice.length ≤ b.gap_end
      omega
    · show b.gap_end ≤ (b.storage.take b.gap_start ++ slice ++
        b.storage.drop (b.gap_start + slice.length)).length
      rw [hlen]
      exact h2
    show (b.storage.take b.gap_start ++ slice ++
          b.storage.drop (b.gap_start + slice.length)).take
            (b.gap_start + slice.length) ++
        (b.storage.take b.gap_start ++ slice ++
          b.storage.drop (b.gap_start + slice.length)).drop b.gap_end =
      b.storage.take b.gap_start ++ slice ++ b.storage.drop b.gap_end
    rw [show b.storage.take b.gap_start ++ slice ++
        b.storage.drop (b.gap_start + slice.length) =
        (b.storage.take b.gap_start ++ slice) ++
          b.storage.drop (b.gap_start + slice.length) from by
      simp [List.append_assoc]]
    rw [List.take_left' hAS]
    rw [drop_append_ge _ _ _ (by omega)]
    rw [hAS, List.drop_drop]
    rw [show b.gap_start + slice.length + (b.gap_end - (b.gap_start + slice.length)) =
      b.gap_end from by omega, List.append_assoc]

theorem delete_spec (b : Buffer) (n : Nat) (b' : Buffer) (h : b.wf)
    (hd : b.delete n = some b') :
    b'.wf ∧ b'.gap_start = b.gap_start - n ∧ b'.gap_end = b.gap_end ∧
    b'.storage = b.storage ∧
    b'.content = b.storage.take (b.gap_start - n) ++ b.storage.drop b.gap_end ∧
    b.gap_start - b'.gap_start = min n b.gap_start ∧
    isCharBoundary (b.storage.take b.gap_start) (b.gap_start - n) = true := by
  obtain ⟨h1, h2⟩ := h
  have hA : (b.storage.take b.gap_start).length = b.gap_start := by
    simp [List.length_take]
    omega
  unfold Buffer.delete at hd
  simp only [hA] at hd
  by_cases hb : isCharBoundary (b.storage.take b.gap_start) (b.gap_start - n) = true
  · rw [if_pos hb] at hd
    obtain rfl : b' = ⟨b.storage, b.gap_start - n, b.gap_end⟩ :=
      (Option.some_inj.mp hd).symm
    refine ⟨⟨?_, h2⟩, rfl, rfl, rfl, rfl, ?_, hb⟩
    · show b.gap_start - n ≤ b.gap_end
      omega
    · show b.gap_start - (b.gap_start - n) = min n b.gap_start
      omega
  · rw [if_neg hb] at hd
    cases hd

end Rune.Buf

/-- C10: the gap buffer keeps `gap_start ≤ gap_end ≤ storage.len()`
across every operation and its logical content is
`storage[..gap_start] ++ storage[gap_end..]`: `new(data)` has content
`data`, `gap_start = 0` and a gap of exactly `GAP_SIZE = 5` bytes;
`insert_string(s)` has content old-pre-gap ++ `s` ++ old-post-gap,
leaving the storage length unchanged when the gap is at least `len(s)`
and growing it otherwise; a successful `delete(n)` removes
`min(n, gap_start) ≤ n` bytes immediately before the gap, at a UTF-8
character boundary of the pre-gap text. -/
theorem C10_gap_buffer :
    (∀ data, (Rune.Buf.Buffer.mkNew data).wf ∧
      (Rune.Buf.Buffer.mkNew data).content = data ∧
      (Rune.Buf.Buffer.mkNew data).gap_start = 0 ∧
      (Rune.Buf.Buffer.mkNew data).gap_end -
        (Rune.Buf.Buffer.mkNew data).gap_start = Rune.Buf.GAP_SIZE) ∧
    (∀ b slice, b.wf → (b.insert_string slice).wf ∧
      (Rune.Buf.Buffer.insert_string b slice).content =
        b.storage.take b.gap_start ++ slice ++ b.storage.drop b.gap_end ∧
      (slice.length ≤ b.gap_end - b.gap_start →
        (Rune.Buf.Buffer.insert_string b slice).storage.length =
          b.storage.length) ∧
      (b.gap_end - b.gap_start < slice.length →
        (Rune.Buf.Buffer.insert_string b slice).storage.length =
          b.gap_start + slice.length + Rune.Buf.GAP_SIZE +
            (b.storage.length - b.gap_end))) ∧
    (∀ b n b', b.wf → Rune.Buf.Buffer.delete b n = some b' →
      b'.wf ∧ b'.gap_start = b.gap_start - n ∧ b'.gap_end = b.gap_end ∧
      b'.storage = b.storage ∧
      b'.content =
        b.storage.take (b.gap_start - n) ++ b.storage.drop b.gap_end ∧
      b.gap_start - b'.gap_start = min n b.gap_start ∧
      Rune.Buf.isCharBoundary (b.storage.take b.gap_start)
        (b.gap_start - n) = true) :=
  ⟨Rune.Buf.mkNew_spec,
   fun b slice h => Rune.Buf.insert_spec b slice h,
   fun b n b' h hd => Rune.Buf.delete_spec b n b' h hd⟩

/-- C10 witness: a concrete buffer over `"hi"` (bytes 104, 105): insert
two ASCII bytes into the fresh gap, then delete one byte at a character
boundary. -/
theorem C10_gap_buffer_witness :
    (Rune.Buf.Buffer.mkNew [104, 105]).wf ∧
    ((Rune.Buf.Buffer.mkNew [104, 105]).insert_string [33, 34]).wf ∧
    ((Rune.Buf.Buffer.mkNew [104, 105]).insert_string [33, 34]).content =
      [33, 34, 104, 105] ∧
    Rune.Buf.Buffer.delete
        ((Rune.Buf.Buffer.mkNew [104, 105]).insert_string [33, 34]) 1 =
      some ⟨[33, 34, 0, 0, 0, 104, 105], 1, 5⟩ ∧
    (⟨[33, 34, 0, 0, 0, 104, 105], 1, 5⟩ : Rune.Buf.Buffer).wf := by
  have h1 := C10_gap_buffer.1 [104, 105]
  have h2 := C10_gap_buffer.2.1 (Rune.Buf.Buffer.mkNew [104, 105]) [33, 34] h1.1
  have h3 := C10_gap_buffer.2.2
    ((Rune.Buf.Buffer.mkNew [104, 105]).insert_string [33, 34]) 1
    ⟨[33, 34, 0, 0, 0, 104, 105], 1, 5⟩ h2.1 rfl
  exact ⟨h1.1, h2.1, rfl, rfl, h3.1⟩
